import Mathlib

/-!
Shallow embedding of the audio-to-Strudel pipeline
(`tools/youtube_to_strudel.py`): tempo rounding, chroma-based key
detection, note quantization, drum-hit folding onto a 16-slot bar
pattern, pattern simplification and code emission.  Continuous times and
energies are modelled as rationals; Python's `round` (banker's
rounding), `int` (truncation toward zero), float `%` (sign of divisor)
and integer `//` (floor division) are modelled explicitly.
-/

namespace Strudel

/-- Python `round`: nearest integer, ties to the even integer. -/
def pyRound (q : ℚ) : ℤ :=
  if q - (⌊q⌋ : ℚ) < 1/2 then ⌊q⌋
  else if 1/2 < q - (⌊q⌋ : ℚ) then ⌊q⌋ + 1
  else if ⌊q⌋ % 2 = 0 then ⌊q⌋ else ⌊q⌋ + 1

/-- Python `int(...)` on a float: truncation toward zero. -/
def pyInt (q : ℚ) : ℤ := if 0 ≤ q then ⌊q⌋ else ⌈q⌉

/-- Python float `%`: remainder carrying the divisor's sign,
`a - b * floor(a / b)`. -/
def pyMod (a b : ℚ) : ℚ := a - b * (⌊a / b⌋ : ℚ)

/-- `AudioAnalyzer.NOTE_NAMES`. -/
def NOTE_NAMES : List String :=
  ["C", "Db", "D", "Eb", "E", "F", "Gb", "G", "Ab", "A", "Bb", "B"]

/-- `AudioAnalyzer._midi_to_note`: octave is `midi // 12 - 1` (floor
division), pitch class is `midi % 12`, name is lower-cased. -/
def midiToNote (midi : ℤ) : String :=
  let octave := midi / 12 - 1
  let noteIdx := (midi % 12).toNat
  (NOTE_NAMES.getD noteIdx "").toLower ++ toString octave

/-- Inner loop of `np.argmax`: scan the tail, strictly better values
replace the current best, so the first maximum wins. -/
def npArgmaxGo : List ℚ → ℕ → ℕ → ℚ → ℕ
  | [], _, bi, _ => bi
  | x :: xs, i, bi, bv =>
    if bv < x then npArgmaxGo xs (i + 1) i x else npArgmaxGo xs (i + 1) bi bv

/-- `np.argmax`: index of the first occurrence of the maximum. -/
def npArgmax : List ℚ → ℕ
  | [] => 0
  | x :: xs => npArgmaxGo xs 1 0 x

/-- `AudioAnalyzer.analyze_key` on the averaged 12-bin chroma profile:
root is the first argmax bin; mode is minor iff the bin 3 semitones
above the root is strictly greater than the bin 4 semitones above. -/
def analyzeKey (chromaMean : List ℚ) : String × String :=
  let rootIdx := npArgmax chromaMean
  let rootNote := NOTE_NAMES.getD rootIdx ""
  let majorThirdIdx := (rootIdx + 4) % 12
  let minorThirdIdx := (rootIdx + 3) % 12
  let isMinor := chromaMean.getD majorThirdIdx 0 < chromaMean.getD minorThirdIdx 0
  (rootNote, if isMinor then "minor" else "major")

/-- Result shape of `librosa.beat.beat_track`'s tempo: a scalar in old
versions, an array in new ones. -/
inductive TempoResult where
  | scalar (t : ℚ)
  | array (l : List ℚ)

/-- `AudioAnalyzer.analyze_tempo` bpm computation: take the first entry
of an array result (or 120.0 if the array is empty), then `round`. -/
def analyzeTempo (r : TempoResult) : ℤ :=
  let tempo : ℚ :=
    match r with
    | TempoResult.scalar t => t
    | TempoResult.array l =>
      match l with
      | [] => 120
      | t :: _ => t
  pyRound tempo

/-- A detected pitched note as fed into `_quantize_notes`: the `time`
and `midi` entries of the per-frame dictionaries (the `freq` entry is
never read by the quantizer). -/
structure RawNote where
  time : ℚ
  midi : ℤ
deriving DecidableEq

/-- A quantized note produced by `_quantize_notes`: grid time, midi and
rendered name. -/
structure QNote where
  time : ℚ
  midi : ℤ
  note : String
deriving DecidableEq

/-- Projection reading back the `time` and `midi` entries of a
quantized note, for re-feeding it to the quantizer. -/
def QNote.toRaw (q : QNote) : RawNote := ⟨q.time, q.midi⟩

/-- The fixed default `resolution` of `_quantize_notes` (0.125 s). -/
def quantizeResolution : ℚ := 1/8

/-- `round(note['time'] / resolution) * resolution`. -/
def snapTime (res t : ℚ) : ℚ := (pyRound (t / res) : ℚ) * res

/-- Loop of `_quantize_notes`: emit a note when its snapped time or its
midi differs from the last emitted one (`last_time`/`last_midi` start at
the sentinel `-1`). -/
def quantizeGo (res : ℚ) (lastTime : ℚ) (lastMidi : ℤ) : List RawNote → List QNote
  | [] => []
  | n :: ns =>
    let q := snapTime res n.time
    if q ≠ lastTime ∨ n.midi ≠ lastMidi then
      ⟨q, n.midi, midiToNote n.midi⟩ :: quantizeGo res q n.midi ns
    else
      quantizeGo res lastTime lastMidi ns

/-- `AudioAnalyzer._quantize_notes` at its default resolution. -/
def quantizeNotes (notes : List RawNote) : List QNote :=
  quantizeGo quantizeResolution (-1) (-1) notes

/-- Slot computation of `hits_to_pattern`:
`int(round((hit_time % bar_duration) / step_duration)) % 16` with
`step_duration = bar_duration / 16`. -/
def slotOf (barDuration : ℚ) (t : ℚ) : ℤ :=
  pyRound (pyMod t barDuration / (barDuration / 16)) % 16

/-- `hits_to_pattern`: count the hits landing on each of the 16 slots
(only hits before `num_bars * bar_duration` are counted) and mark a slot
when its count reaches `max(1, num_bars // 2)`. -/
def hitsToPattern (hits : List ℚ) (numBars : ℤ) (barDuration : ℚ) : List Bool :=
  let counted := hits.filter (fun h => decide (h < (numBars : ℚ) * barDuration))
  let threshold := max 1 (numBars / 2)
  (List.range 16).map (fun (i : ℕ) =>
    decide (threshold ≤ ((counted.filter (fun h => decide (slotOf barDuration h = (i : ℤ)))).length : ℤ)))

/-- Token appended for a hit subdivision in `simplify_pattern`,
preserving the source's branching on subdivision positions 0 and 2
(every branch appends the same token). -/
def subdivToken (j : ℕ) : String :=
  if j = 0 then "x" else if j = 2 then "x" else "x"

/-- One beat (4 slots) of `simplify_pattern`. -/
def simplifyBeat (beat : List Bool) : String :=
  if beat.contains true then
    let subdivs := beat.enum.filterMap (fun p => if p.2 then some (subdivToken p.1) else none)
    if subdivs ≠ [] then
      if subdivs.length = 1 then "x"
      else "[" ++ String.intercalate " " subdivs ++ "]"
    else "~"
  else "~"

/-- `simplify_pattern`: group the 16 slots into 4 beats of 4 slots and
join the beat tokens with spaces. -/
def simplifyPattern (pattern : List Bool) : String :=
  String.intercalate " "
    [simplifyBeat ((pattern.drop 0).take 4),
     simplifyBeat ((pattern.drop 4).take 4),
     simplifyBeat ((pattern.drop 8).take 4),
     simplifyBeat ((pattern.drop 12).take 4)]

/-- Modelled from the spec: the simplified beat-token builder that
appends the hit token unconditionally for every hit subdivision,
without branching on the subdivision position. -/
def simplifyBeatUnconditional (beat : List Bool) : String :=
  if beat.contains true then
    let subdivs := beat.enum.filterMap (fun p => if p.2 then some "x" else none)
    if subdivs ≠ [] then
      if subdivs.length = 1 then "x"
      else "[" ++ String.intercalate " " subdivs ++ "]"
    else "~"
  else "~"

/-- Modelled from the spec: `simplify_pattern` with the unconditional
beat-token builder. -/
def simplifyPatternUnconditional (pattern : List Bool) : String :=
  String.intercalate " "
    [simplifyBeatUnconditional ((pattern.drop 0).take 4),
     simplifyBeatUnconditional ((pattern.drop 4).take 4),
     simplifyBeatUnconditional ((pattern.drop 8).take 4),
     simplifyBeatUnconditional ((pattern.drop 12).take 4)]

/-- Python's `'x' in s` membership test on a rendered pattern string. -/
def strHasX (s : String) : Bool := s.data.contains 'x'

/-- Stanza assembly of `_generate_drums` from the three band patterns:
kick and snare stanzas when their simplified strings contain a hit,
the hihat shorthand tiers at 12 and 8 slot hits, the literal hihat
pattern when it still contains a hit, and the documented steady-kick
fallback when no part was produced. -/
def drumsFromPatterns (kickP snareP hihatP : List Bool) : String :=
  let kickStr := simplifyPattern kickP
  let snareStr := simplifyPattern snareP
  let drumParts : List String :=
    (if strHasX kickStr then
      ["note(\"c2\").struct(\"" ++ kickStr ++ "\").s(\"square\").decay(0.08).lpf(150).gain(0.9)"]
     else []) ++
    (if strHasX snareStr then
      ["note(\"c3\").struct(\"" ++ snareStr ++ "\").s(\"square\").hpf(400).decay(0.06).gain(0.7)"]
     else []) ++
    (if 12 ≤ hihatP.count true then
      ["note(\"c6*8\").s(\"pink\").hpf(8000).decay(0.02).gain(0.4)"]
     else if 8 ≤ hihatP.count true then
      ["note(\"c6*4\").s(\"pink\").hpf(8000).decay(0.02).gain(0.4)"]
     else if strHasX (simplifyPattern hihatP) then
      ["note(\"c6\").struct(\"" ++ simplifyPattern hihatP ++ "\").s(\"pink\").hpf(8000).decay(0.02).gain(0.4)"]
     else [])
  if drumParts ≠ [] then
    "// Drums\n" ++ "stack(" ++ String.intercalate ", " drumParts ++ ")"
  else
    "// Drums\n" ++ "note(\"c2*4\").s(\"square\").decay(0.08).lpf(150)"

/-- `StrudelGenerator._generate_drums`: bar duration from the bpm,
`num_bars = min(4, int(duration / bar_duration))`, one pattern per band,
then stanza assembly. -/
def generateDrums (kick snare hihat : List ℚ) (bpm : ℤ) (duration : ℚ) : String :=
  let barDuration := (60 / (bpm : ℚ)) * 4
  let numBars := min 4 (pyInt (duration / barDuration))
  drumsFromPatterns (hitsToPattern kick numBars barDuration)
    (hitsToPattern snare numBars barDuration)
    (hitsToPattern hihat numBars barDuration)

/-- Consecutive-duplicate removal loop shared by `_generate_bass` and
`_generate_melody` (`last_note` starts at `None`). -/
def dedupGo (last : Option String) : List String → List String
  | [] => []
  | n :: ns => if some n ≠ last then n :: dedupGo (some n) ns else dedupGo last ns

/-- `unique_notes` construction: drop consecutive duplicate names. -/
def dedupConsecutive (l : List String) : List String := dedupGo none l

/-- Note selection of `_generate_bass`: first 32 notes, restrict to the
first two bars (falling back to the first 8 notes), keep at most 8
names, collapse consecutive duplicates, keep at most 4. -/
def bassSelect (bassNotes : List QNote) (bpm : ℤ) : List String :=
  let notes := bassNotes.take 32
  let barDuration := (60 / (bpm : ℚ)) * 4
  let firstBarNotes := notes.filter (fun n => decide (n.time < barDuration * 2))
  let firstBarNotes := if firstBarNotes.isEmpty then notes.take 8 else firstBarNotes
  let noteNames := (firstBarNotes.take 8).map (fun n => n.note)
  (dedupConsecutive noteNames).take 4

/-- `StrudelGenerator._generate_bass` stanza text. -/
def generateBass (bassNotes : List QNote) (bpm : ℤ) : String :=
  let u := bassSelect bassNotes bpm
  if u.isEmpty then ""
  else
    "// Bass\n" ++ "note(\"" ++ String.intercalate " " u ++
      "\").s(\"sawtooth\").lpf(400).decay(0.2).sustain(0.3).gain(0.6)"

/-- Note selection of `_generate_melody`: first 64 notes, restrict to
the first two bars (falling back to the first 8 notes), keep at most 8
names, collapse consecutive duplicates, keep at most 8. -/
def melodySelect (melodyNotes : List QNote) (bpm : ℤ) : List String :=
  let notes := melodyNotes.take 64
  let barDuration := (60 / (bpm : ℚ)) * 4
  let firstBarNotes := notes.filter (fun n => decide (n.time < barDuration * 2))
  let firstBarNotes := if firstBarNotes.isEmpty then notes.take 8 else firstBarNotes
  let noteNames := (firstBarNotes.take 8).map (fun n => n.note)
  (dedupConsecutive noteNames).take 8

/-- `StrudelGenerator._generate_melody` stanza text. -/
def generateMelody (melodyNotes : List QNote) (bpm : ℤ) : String :=
  let u := melodySelect melodyNotes bpm
  if u.isEmpty then ""
  else
    "// Melody\n" ++ "note(\"" ++ String.intercalate " " u ++
      "\").s(\"triangle\").decay(0.3).sustain(0.4).delay(0.2).gain(0.5)"

/-- The 16th-note grid spacing used by `hits_to_pattern`:
`step_duration = bar_duration / 16` with `bar_duration = (60/bpm) * 4`. -/
def drumStepDuration (bpm : ℤ) : ℚ := ((60 / (bpm : ℚ)) * 4) / 16

/-- Notes realizing the spec's dedup example: midis 60,60,62,62,64 with
duplicate entries snapping to matching grid times. -/
def exNotes : List RawNote :=
  [⟨0, 60⟩, ⟨0, 60⟩, ⟨1, 62⟩, ⟨1, 62⟩, ⟨2, 64⟩]

end Strudel

namespace Strudel

theorem pyRound_intCast (k : ℤ) : pyRound (k : ℚ) = k := by
  unfold pyRound
  rw [Int.floor_intCast]
  norm_num

theorem pyRound_cases (q : ℚ) : pyRound q = ⌊q⌋ ∨ pyRound q = ⌊q⌋ + 1 := by
  unfold pyRound
  split_ifs <;> simp

theorem pyRound_nearest (q : ℚ) : |q - (pyRound q : ℚ)| ≤ 1/2 := by
  have h0 : (⌊q⌋ : ℚ) ≤ q := Int.floor_le q
  have h1 : q < (⌊q⌋ : ℚ) + 1 := Int.lt_floor_add_one q
  unfold pyRound
  split_ifs with ha hb hc
  · rw [abs_le]; constructor <;> linarith
  · rw [abs_le]; push_cast; constructor <;> linarith
  · rw [abs_le]; constructor <;> linarith
  · rw [abs_le]; push_cast; constructor <;> linarith

theorem pyRound_nonneg (q : ℚ) (h : 0 ≤ q) : 0 ≤ pyRound q := by
  have hf : (0 : ℤ) ≤ ⌊q⌋ := Int.floor_nonneg.2 h
  rcases pyRound_cases q with he | he <;> omega

theorem snapTime_idem (res : ℚ) (hres : res ≠ 0) (t : ℚ) :
    snapTime res (snapTime res t) = snapTime res t := by
  unfold snapTime
  rw [mul_div_assoc, div_self hres, mul_one, pyRound_intCast]

theorem pyRound_eq_floor (q : ℚ) (h : q - (⌊q⌋ : ℚ) < 1/2) : pyRound q = ⌊q⌋ := by
  unfold pyRound
  rw [if_pos h]

theorem snapTime_mul (res : ℚ) (hres : res ≠ 0) (k : ℤ) :
    snapTime res ((k : ℚ) * res) = (k : ℚ) * res := by
  unfold snapTime
  rw [mul_div_assoc, div_self hres, mul_one, pyRound_intCast]

theorem snapTime_fixed (res t : ℚ) (k : ℤ) (hres : res ≠ 0) (h : (k : ℚ) * res = t) :
    snapTime res t = t := by
  rw [← h, snapTime_mul res hres k]

theorem snapTime_nonneg (res : ℚ) (hres : 0 ≤ res) (t : ℚ) (ht : 0 ≤ t) :
    0 ≤ snapTime res t := by
  unfold snapTime
  have : (0 : ℤ) ≤ pyRound (t / res) := pyRound_nonneg _ (div_nonneg ht hres)
  have : (0 : ℚ) ≤ (pyRound (t / res) : ℚ) := by exact_mod_cast this
  exact mul_nonneg this hres

/-- C8: tempo estimation rounds the scalar result to the nearest
integer bpm; an array result contributes its first value; an empty
array result defaults to 120 instead of raising. -/
theorem analyzeTempo_spec :
    (∀ t : ℚ, analyzeTempo (TempoResult.scalar t) = pyRound t ∧
      |t - (analyzeTempo (TempoResult.scalar t) : ℚ)| ≤ 1/2) ∧
    (∀ (t : ℚ) (ts : List ℚ), analyzeTempo (TempoResult.array (t :: ts)) = pyRound t) ∧
    analyzeTempo (TempoResult.array []) = 120 := by
  refine ⟨fun t => ⟨rfl, pyRound_nearest t⟩, fun t ts => rfl, ?_⟩
  show pyRound ((120 : ℤ) : ℚ) = 120
  exact pyRound_intCast 120

theorem subdivToken_eq (j : ℕ) : subdivToken j = "x" := by
  unfold subdivToken
  split_ifs <;> rfl

theorem simplifyBeat_eq (b : List Bool) :
    simplifyBeat b = simplifyBeatUnconditional b := by
  simp only [simplifyBeat, simplifyBeatUnconditional, subdivToken_eq]

/-- C9: the beat-grouping token logic of `simplify_pattern`, whose
branching on subdivision positions 0, 1, 2, 3 appends the same token in
every branch, is observationally equivalent to the version that appends
the hit token unconditionally: both emit the same string on every
pattern. -/
theorem simplifyPattern_eq_unconditional (pattern : List Bool) :
    simplifyPattern pattern = simplifyPatternUnconditional pattern := by
  simp only [simplifyPattern, simplifyPatternUnconditional, simplifyBeat_eq]

/-- C7: the bass stanza keeps at most 4 consecutive-duplicate-collapsed
notes and the melody stanza at most 8, whatever the detected notes and
bpm are. -/
theorem bass_melody_note_bounds :
    ∀ (bassNotes melodyNotes : List QNote) (bpm : ℤ),
      (bassSelect bassNotes bpm).length ≤ 4 ∧
      (melodySelect melodyNotes bpm).length ≤ 8 := by
  intro b mel bpm
  exact ⟨List.length_take_le 4 _, List.length_take_le 8 _⟩

theorem quantizeGo_idem (res : ℚ) (hres : res ≠ 0) (ns : List RawNote) :
    ∀ (t : ℚ) (m : ℤ),
      quantizeGo res t m ((quantizeGo res t m ns).map QNote.toRaw) =
        quantizeGo res t m ns := by
  induction ns with
  | nil => intro t m; rfl
  | cons n ns ih =>
    intro t m
    by_cases hc : snapTime res n.time ≠ t ∨ n.midi ≠ m
    · have h1 : quantizeGo res t m (n :: ns) =
          ⟨snapTime res n.time, n.midi, midiToNote n.midi⟩ ::
            quantizeGo res (snapTime res n.time) n.midi ns := by
        simp only [quantizeGo]
        rw [if_pos hc]
      rw [h1, List.map_cons]
      have h2 : QNote.toRaw ⟨snapTime res n.time, n.midi, midiToNote n.midi⟩ =
          ⟨snapTime res n.time, n.midi⟩ := rfl
      rw [h2]
      have hc' : snapTime res (snapTime res n.time) ≠ t ∨ n.midi ≠ m := by
        rwa [snapTime_idem res hres]
      simp only [quantizeGo]
      rw [if_pos hc', snapTime_idem res hres]
      exact congrArg _ (ih (snapTime res n.time) n.midi)
    · have h1 : quantizeGo res t m (n :: ns) = quantizeGo res t m ns := by
        simp only [quantizeGo]
        rw [if_neg hc]
      rw [h1]
      exact ih t m

theorem cons_quantizeGo_destutter (res : ℚ) (ns : List RawNote) :
    ∀ (t : ℚ) (m : ℤ),
      ((t, m) : ℚ × ℤ) :: (quantizeGo res t m ns).map (fun q => (q.time, q.midi)) =
        List.destutter' (· ≠ ·) (t, m) (ns.map (fun n => (snapTime res n.time, n.midi))) := by
  induction ns with
  | nil => intro t m; rfl
  | cons n ns ih =>
    intro t m
    rw [List.map_cons, List.destutter'_cons]
    by_cases hc : snapTime res n.time ≠ t ∨ n.midi ≠ m
    · have hR : ((t, m) : ℚ × ℤ) ≠ (snapTime res n.time, n.midi) := by
        intro he
        rw [Prod.mk.injEq] at he
        rcases hc with h | h
        · exact h he.1.symm
        · exact h he.2.symm
      rw [if_pos hR]
      have h1 : quantizeGo res t m (n :: ns) =
          ⟨snapTime res n.time, n.midi, midiToNote n.midi⟩ ::
            quantizeGo res (snapTime res n.time) n.midi ns := by
        simp only [quantizeGo]
        rw [if_pos hc]
      rw [h1, List.map_cons]
      exact congrArg _ (ih (snapTime res n.time) n.midi)
    · have hR : ¬ (((t, m) : ℚ × ℤ) ≠ (snapTime res n.time, n.midi)) := by
        push_neg at hc ⊢
        exact Prod.ext hc.1.symm hc.2.symm
      rw [if_neg hR]
      have h1 : quantizeGo res t m (n :: ns) = quantizeGo res t m ns := by
        simp only [quantizeGo]
        rw [if_neg hc]
      rw [h1]
      exact ih t m

/-- C4: on note sequences with non-negative times (as produced by the
pitch trackers), the quantizer snaps each time to the nearest grid
multiple and keeps a note exactly when its `(grid_time, midi)` pair
differs from the previous kept one — its output is the consecutive
dedup (`List.destutter`) of the snapped pairs — and quantizing the
spec's `[60,60,62,62,64]` example yields exactly `[60,62,64]`. -/
theorem quantizeNotes_dedup_spec :
    (∀ notes : List RawNote,
      (notes.all fun n => decide (0 ≤ n.time)) = true →
        (quantizeNotes notes).map (fun q => (q.time, q.midi)) =
          List.destutter (· ≠ ·)
            (notes.map (fun n => (snapTime quantizeResolution n.time, n.midi)))) ∧
    (∀ t : ℚ, |t - snapTime quantizeResolution t| ≤ quantizeResolution / 2) ∧
    (quantizeNotes exNotes).map (fun q => q.midi) = [60, 62, 64] := by
  have hres : quantizeResolution ≠ 0 := by
    unfold quantizeResolution
    norm_num
  refine ⟨?_, ?_, ?_⟩
  · intro notes hall
    cases notes with
    | nil => rfl
    | cons n ns =>
      rw [List.all_eq_true] at hall
      have ht : 0 ≤ n.time := of_decide_eq_true (hall n (List.mem_cons_self n ns))
      have hsnap : 0 ≤ snapTime quantizeResolution n.time := by
        refine snapTime_nonneg _ ?_ _ ht
        unfold quantizeResolution
        norm_num
      have hc : snapTime quantizeResolution n.time ≠ (-1 : ℚ) ∨ n.midi ≠ (-1 : ℤ) := by
        left
        intro he
        rw [he] at hsnap
        norm_num at hsnap
      have h1 : quantizeNotes (n :: ns) =
          ⟨snapTime quantizeResolution n.time, n.midi, midiToNote n.midi⟩ ::
            quantizeGo quantizeResolution (snapTime quantizeResolution n.time) n.midi ns := by
        simp only [quantizeNotes, quantizeGo]
        rw [if_pos hc]
      rw [h1, List.map_cons, List.map_cons, List.destutter_cons']
      exact cons_quantizeGo_destutter quantizeResolution ns
        (snapTime quantizeResolution n.time) n.midi
  · intro t
    have h := pyRound_nearest (t / quantizeResolution)
    have hpos : (0 : ℚ) < quantizeResolution := by
      unfold quantizeResolution
      norm_num
    have key : t - snapTime quantizeResolution t =
        (t / quantizeResolution - (pyRound (t / quantizeResolution) : ℚ)) *
          quantizeResolution := by
      unfold snapTime
      rw [sub_mul, div_mul_cancel₀ t (ne_of_gt hpos)]
    have habs : |t - snapTime quantizeResolution t| =
        |t / quantizeResolution - (pyRound (t / quantizeResolution) : ℚ)| *
          quantizeResolution := by
      rw [key, abs_mul, abs_of_pos hpos]
    rw [habs]
    have hm := mul_le_mul_of_nonneg_right h (le_of_lt hpos)
    linarith
  · have h0 : snapTime quantizeResolution 0 = 0 :=
      snapTime_fixed _ 0 0 hres (by norm_num)
    have h1 : snapTime quantizeResolution 1 = 1 :=
      snapTime_fixed _ 1 8 hres (by unfold quantizeResolution; norm_num)
    have h2 : snapTime quantizeResolution 2 = 2 :=
      snapTime_fixed _ 2 16 hres (by unfold quantizeResolution; norm_num)
    simp only [quantizeNotes, exNotes, quantizeGo, h0, h1, h2, List.map_cons, List.map_nil]
    norm_num

/-- C2: the event quantizer is idempotent — re-quantizing the output of
`_quantize_notes` (reading back its `time` and `midi` entries) returns
that output unchanged. -/
theorem quantizeNotes_idempotent (notes : List RawNote) :
    quantizeNotes ((quantizeNotes notes).map QNote.toRaw) = quantizeNotes notes := by
  have hres : quantizeResolution ≠ 0 := by
    unfold quantizeResolution
    norm_num
  exact quantizeGo_idem quantizeResolution hres notes (-1) (-1)

theorem le_foldl_max (l : List ℚ) : ∀ b : ℚ, b ≤ l.foldl max b := by
  induction l with
  | nil => intro b; simp
  | cons x xs ih =>
    intro b
    rw [List.foldl_cons]
    exact le_trans (le_max_left b x) (ih (max b x))

theorem mem_le_foldl_max (l : List ℚ) : ∀ (b x : ℚ), x ∈ l → x ≤ l.foldl max b := by
  induction l with
  | nil => intro b x hx; cases hx
  | cons y ys ih =>
    intro b x hx
    rw [List.foldl_cons]
    rcases List.mem_cons.1 hx with h | h
    · subst h
      exact le_trans (le_max_right b x) (le_foldl_max ys (max b x))
    · exact ih (max b y) x h

theorem foldl_max_of_le (l : List ℚ) : ∀ b : ℚ, (∀ x ∈ l, x ≤ b) → l.foldl max b = b := by
  induction l with
  | nil => intro b _; rfl
  | cons x xs ih =>
    intro b h
    rw [List.foldl_cons, max_eq_left (h x (List.mem_cons_self x xs))]
    exact ih b (fun y hy => h y (List.mem_cons_of_mem x hy))

theorem npArgmaxGo_spec (xs : List ℚ) : ∀ (i bi : ℕ) (bv : ℚ),
    (npArgmaxGo xs i bi bv = bi ∧ ∀ x ∈ xs, x ≤ bv) ∨
    (∃ k, k < xs.length ∧ npArgmaxGo xs i bi bv = i + k ∧
      xs.getD k 0 = xs.foldl max bv ∧ bv < xs.getD k 0 ∧
      ∀ m < k, xs.getD m 0 < xs.getD k 0) := by
  induction xs with
  | nil =>
    intro i bi bv
    left
    exact ⟨rfl, by simp⟩
  | cons x xs ih =>
    intro i bi bv
    by_cases hx : bv < x
    · right
      have hgo : npArgmaxGo (x :: xs) i bi bv = npArgmaxGo xs (i + 1) i x := by
        simp only [npArgmaxGo]
        rw [if_pos hx]
      have hfold : (x :: xs).foldl max bv = xs.foldl max x := by
        rw [List.foldl_cons, max_eq_right (le_of_lt hx)]
      rcases ih (i + 1) i x with ⟨heq, hall⟩ | ⟨k, hk, heq, hmax, hlt, hfirst⟩
      · refine ⟨0, by simp, ?_, ?_, ?_, ?_⟩
        · rw [hgo, heq]
          omega
        · rw [List.getD_cons_zero, hfold]
          exact (foldl_max_of_le xs x hall).symm
        · rw [List.getD_cons_zero]
          exact hx
        · intro m hm
          omega
      · have hxV : x < xs.getD k 0 := hlt
        refine ⟨k + 1, by simp only [List.length_cons]; omega, ?_, ?_, ?_, ?_⟩
        · rw [hgo, heq]
          omega
        · rw [List.getD_cons_succ, hfold]
          exact hmax
        · rw [List.getD_cons_succ]
          exact lt_trans hx hxV
        · intro m hm
          cases m with
          | zero =>
            rw [List.getD_cons_zero, List.getD_cons_succ]
            exact hxV
          | succ m =>
            rw [List.getD_cons_succ, List.getD_cons_succ]
            exact hfirst m (by omega)
    · have hgo : npArgmaxGo (x :: xs) i bi bv = npArgmaxGo xs (i + 1) bi bv := by
        simp only [npArgmaxGo]
        rw [if_neg hx]
      have hxb : x ≤ bv := not_lt.1 hx
      have hfold : (x :: xs).foldl max bv = xs.foldl max bv := by
        rw [List.foldl_cons, max_eq_left hxb]
      rcases ih (i + 1) bi bv with ⟨heq, hall⟩ | ⟨k, hk, heq, hmax, hlt, hfirst⟩
      · left
        refine ⟨by rw [hgo, heq], ?_⟩
        intro y hy
        rcases List.mem_cons.1 hy with h | h
        · subst h; exact hxb
        · exact hall y h
      · right
        refine ⟨k + 1, by simp only [List.length_cons]; omega, ?_, ?_, ?_, ?_⟩
        · rw [hgo, heq]
          omega
        · rw [List.getD_cons_succ, hfold]
          exact hmax
        · rw [List.getD_cons_succ]
          exact hlt
        · intro m hm
          cases m with
          | zero =>
            rw [List.getD_cons_zero, List.getD_cons_succ]
            exact lt_of_le_of_lt hxb hlt
          | succ m =>
            rw [List.getD_cons_succ, List.getD_cons_succ]
            exact hfirst m (by omega)

theorem npArgmax_spec (x : ℚ) (xs : List ℚ) :
    npArgmax (x :: xs) < (x :: xs).length ∧
    (∀ j < (x :: xs).length, (x :: xs).getD j 0 ≤ (x :: xs).getD (npArgmax (x :: xs)) 0) ∧
    (∀ j < npArgmax (x :: xs), (x :: xs).getD j 0 < (x :: xs).getD (npArgmax (x :: xs)) 0) := by
  have hdef : npArgmax (x :: xs) = npArgmaxGo xs 1 0 x := rfl
  rcases npArgmaxGo_spec xs 1 0 x with ⟨heq, hall⟩ | ⟨k, hk, heq, hmax, hlt, hfirst⟩
  · have hr : npArgmax (x :: xs) = 0 := by rw [hdef, heq]
    rw [hr]
    refine ⟨by simp, ?_, by intro j hj; omega⟩
    intro j hj
    rw [List.getD_cons_zero]
    cases j with
    | zero => rw [List.getD_cons_zero]
    | succ j =>
      rw [List.getD_cons_succ]
      simp only [List.length_cons] at hj
      have hjlt : j < xs.length := by omega
      rw [List.getD_eq_getElem xs 0 hjlt]
      exact hall _ (List.getElem_mem hjlt)
  · have hr : npArgmax (x :: xs) = k + 1 := by rw [hdef, heq]; omega
    rw [hr]
    refine ⟨by simp only [List.length_cons]; omega, ?_, ?_⟩
    · intro j hj
      rw [List.getD_cons_succ, hmax]
      cases j with
      | zero =>
        rw [List.getD_cons_zero]
        exact le_foldl_max xs x
      | succ j =>
        rw [List.getD_cons_succ]
        simp only [List.length_cons] at hj
        have hjlt : j < xs.length := by omega
        rw [List.getD_eq_getElem xs 0 hjlt]
        exact mem_le_foldl_max xs x _ (List.getElem_mem hjlt)
    · intro j hj
      rw [List.getD_cons_succ]
      cases j with
      | zero =>
        rw [List.getD_cons_zero]
        exact hlt
      | succ j =>
        rw [List.getD_cons_succ]
        exact hfirst j (by omega)

/-- C5: key detection returns as root the pitch-class name of the first
index of maximum average chroma energy (an all-zero profile yields "C"
with major mode), and mode is minor exactly when the bin 3 semitones
above the root is strictly greater than the bin 4 semitones above it,
ties resolving to major. -/
theorem analyzeKey_spec (c : List ℚ) (h : c.length = 12) :
    npArgmax c < 12 ∧
    (∀ j < 12, c.getD j 0 ≤ c.getD (npArgmax c) 0) ∧
    (∀ j < npArgmax c, c.getD j 0 < c.getD (npArgmax c) 0) ∧
    (analyzeKey c).1 = NOTE_NAMES.getD (npArgmax c) "" ∧
    ((analyzeKey c).2 = "minor" ↔
      c.getD ((npArgmax c + 4) % 12) 0 < c.getD ((npArgmax c + 3) % 12) 0) ∧
    analyzeKey (List.replicate 12 0) = ("C", "major") := by
  obtain ⟨x, xs, rfl⟩ : ∃ x xs, c = x :: xs := by
    cases c with
    | nil => simp at h
    | cons x xs => exact ⟨x, xs, rfl⟩
  obtain ⟨h1, h2, h3⟩ := npArgmax_spec x xs
  rw [h] at h1 h2
  refine ⟨h1, h2, h3, rfl, ?_, by decide⟩
  by_cases hm : (x :: xs).getD ((npArgmax (x :: xs) + 4) % 12) 0 <
      (x :: xs).getD ((npArgmax (x :: xs) + 3) % 12) 0
  · have hmi : (analyzeKey (x :: xs)).2 = "minor" := by
      simp only [analyzeKey]
      rw [if_pos hm]
    rw [hmi]
    constructor
    · intro _; exact hm
    · intro _; rfl
  · have hma : (analyzeKey (x :: xs)).2 = "major" := by
      simp only [analyzeKey]
      rw [if_neg hm]
    rw [hma]
    constructor
    · intro he
      exact absurd he (by decide)
    · intro hc
      exact absurd hc hm

/-- C6 counterexample: at bpm 60 the drum 16-slot grid spacing is
0.25 s, differing both from the fixed note-quantization constant
0.125 s and from the drum grid spacing at bpm 120, so the drum grid is
not the same constant for every detected bpm. -/
theorem drum_grid_not_fixed_counterexample :
    drumStepDuration 60 ≠ quantizeResolution ∧
    drumStepDuration 60 ≠ drumStepDuration 120 := by
  constructor
  · unfold drumStepDuration quantizeResolution
    push_cast
    norm_num
  · unfold drumStepDuration
    push_cast
    norm_num

/-- C6 amended: bass and melody notes share the fixed quantization
resolution 0.125 s (the default of `_quantize_notes`, used by both
extractors), but the drum 16-slot grid spacing is tempo-dependent —
`bar_duration / 16 = 15 / bpm` seconds — and coincides with the fixed
constant only at bpm 120. -/
theorem quantization_grid_resolutions (bpm : ℤ) (h : bpm ≠ 0) :
    quantizeResolution = 1/8 ∧
    drumStepDuration bpm = 15 / (bpm : ℚ) ∧
    (drumStepDuration bpm = quantizeResolution ↔ bpm = 120) := by
  have hb : (bpm : ℚ) ≠ 0 := Int.cast_ne_zero.2 h
  refine ⟨rfl, ?_, ?_⟩
  · unfold drumStepDuration
    field_simp
    ring
  · unfold drumStepDuration quantizeResolution
    constructor
    · intro he
      field_simp at he
      have hq : (bpm : ℚ) = 120 := by linarith
      exact_mod_cast hq
    · intro he
      subst he
      push_cast
      norm_num

theorem hitsToPattern_length (hits : List ℚ) (numBars : ℤ) (bd : ℚ) :
    (hitsToPattern hits numBars bd).length = 16 := by
  unfold hitsToPattern
  rw [List.length_map, List.length_range]

theorem hitsToPattern_getD (hits : List ℚ) (numBars : ℤ) (bd : ℚ) (i : ℕ) (hi : i < 16) :
    (hitsToPattern hits numBars bd).getD i false =
      decide (max 1 (numBars / 2) ≤
        (((hits.filter (fun h => decide (h < (numBars : ℚ) * bd))).filter
          (fun h => decide (slotOf bd h = (i : ℤ)))).length : ℤ)) := by
  unfold hitsToPattern
  rw [List.getD_eq_getElem?_getD, List.getElem?_map, List.getElem?_range hi]
  rfl

theorem hitsToPattern_no_counted (hits : List ℚ) (numBars : ℤ) (bd : ℚ)
    (h : ∀ t ∈ hits, ¬ (t < (numBars : ℚ) * bd)) :
    hitsToPattern hits numBars bd = List.replicate 16 false := by
  unfold hitsToPattern
  have hf : hits.filter (fun h => decide (h < (numBars : ℚ) * bd)) = [] := by
    rw [List.filter_eq_nil_iff]
    intro a ha
    simp only [decide_eq_true_iff]
    exact h a ha
  rw [hf]
  rw [List.eq_replicate_iff]
  refine ⟨by rw [List.length_map, List.length_range], ?_⟩
  intro b hb
  rw [List.mem_map] at hb
  obtain ⟨i, hi, hbi⟩ := hb
  rw [← hbi]
  simp only [List.filter_nil, List.length_nil, Nat.cast_zero]
  rw [decide_eq_false_iff_not]
  intro hle
  have h1 : (1 : ℤ) ≤ max 1 (numBars / 2) := le_max_left _ _
  omega

theorem hitsToPattern_nil (numBars : ℤ) (bd : ℚ) :
    hitsToPattern [] numBars bd = List.replicate 16 false :=
  hitsToPattern_no_counted [] numBars bd (by intro t ht; cases ht)

theorem count_true_zero_eq_replicate (l : List Bool) (h : l.count true = 0) :
    l = List.replicate l.length false := by
  rw [List.eq_replicate_iff]
  refine ⟨rfl, ?_⟩
  intro b hb
  cases b with
  | false => rfl
  | true => exact absurd hb (List.count_eq_zero.1 h)

theorem drumsFromPatterns_allRest :
    drumsFromPatterns (List.replicate 16 false) (List.replicate 16 false)
      (List.replicate 16 false) =
      "// Drums\nnote(\"c2*4\").s(\"square\").decay(0.08).lpf(150)" := by decide

theorem slotOf_eval (bd t : ℚ) (k : ℤ) (h : pyMod t bd / (bd / 16) = (k : ℚ)) :
    slotOf bd t = k % 16 := by
  unfold slotOf
  rw [h, pyRound_intCast]

theorem slotOf_two_zero : slotOf 2 0 = 0 := by
  rw [slotOf_eval 2 0 0 (by unfold pyMod; norm_num)]
  decide

theorem slotOf_two_two : slotOf 2 2 = 0 := by
  rw [slotOf_eval 2 2 0 (by unfold pyMod; norm_num)]
  decide

theorem slotOf_two_four : slotOf 2 4 = 0 := by
  rw [slotOf_eval 2 4 0 (by unfold pyMod; norm_num)]
  decide

theorem slotOf_two_six : slotOf 2 6 = 0 := by
  rw [slotOf_eval 2 6 0 (by unfold pyMod; norm_num)]
  decide

theorem bar_at_120 : (60 / ((120 : ℤ) : ℚ)) * 4 = 2 := by
  push_cast
  norm_num

/-- C1 amended: a slot of the 16-slot pattern is marked "hit" iff the
total number of hits folded onto that slot (among hits with time below
`num_bars * bar_duration`) reaches `max(1, num_bars // 2)` — a
floor-based threshold over raw hit counts, not a `ceil(N/2)` vote over
distinct bars; with N = 4 observed bars a slot hit once in each of 2
bars is marked hit and a slot hit in only 1 bar is marked rest. -/
theorem hitsToPattern_threshold (hits : List ℚ) (numBars : ℤ) (bd : ℚ) (i : ℕ)
    (hi : i < 16) :
    ((hitsToPattern hits numBars bd).getD i false = true ↔
      max 1 (numBars / 2) ≤
        ((hits.filter (fun h => decide (slotOf bd h = (i : ℤ)) &&
            decide (h < (numBars : ℚ) * bd))).length : ℤ)) ∧
    (hitsToPattern [0, 2] 4 2).getD 0 false = true ∧
    (hitsToPattern [0] 4 2).getD 0 false = false := by
  have hb4 : ((4 : ℤ) : ℚ) * 2 = 8 := by push_cast; norm_num
  refine ⟨?_, ?_, ?_⟩
  · rw [hitsToPattern_getD hits numBars bd i hi, List.filter_filter, decide_eq_true_iff]
  · rw [hitsToPattern_getD [0, 2] 4 2 0 (by norm_num), hb4]
    have hf : List.filter (fun h => decide (h < (8 : ℚ))) [0, 2] = [0, 2] := by decide
    rw [hf]
    simp only [List.filter_cons, List.filter_nil, slotOf_two_zero, slotOf_two_two]
    decide
  · rw [hitsToPattern_getD [0] 4 2 0 (by norm_num), hb4]
    have hf : List.filter (fun h => decide (h < (8 : ℚ))) [0] = [0] := by decide
    rw [hf]
    simp only [List.filter_cons, List.filter_nil, slotOf_two_zero]
    decide

/-- C1 counterexample: at bpm 120 and duration 6 s there are N = 3
observed bars; a slot hit in only 1 distinct bar (a single hit at time
0) is nonetheless marked "hit" because the code's threshold is
`max(1, 3 // 2) = 1`, while the claim's `ceil(3/2) = 2` would leave it
a rest. -/
theorem hitsToPattern_ceil_counterexample :
    min 4 (pyInt ((6 : ℚ) / ((60 / ((120 : ℤ) : ℚ)) * 4))) = 3 ∧
    ((([(0 : ℚ)].filter (fun h => decide (h < ((3 : ℤ) : ℚ) * 2))).map
      (fun h => ⌊h / (2 : ℚ)⌋)).dedup.length = 1 ∧
    (1 : ℤ) < ⌈(3 : ℚ) / 2⌉) ∧
    (hitsToPattern [0] 3 2).getD 0 false = true := by
  have hb3 : ((3 : ℤ) : ℚ) * 2 = 6 := by push_cast; norm_num
  refine ⟨?_, ⟨?_, ?_⟩, ?_⟩
  · rw [bar_at_120]
    have : pyInt ((6 : ℚ) / 2) = 3 := by
      unfold pyInt
      norm_num
    rw [this]
    decide
  · rw [hb3]
    have hf : List.filter (fun h => decide (h < (6 : ℚ))) [0] = [0] := by decide
    rw [hf]
    have hm0 : ⌊(0 : ℚ) / 2⌋ = 0 := by norm_num
    simp only [List.map_cons, List.map_nil, hm0]
    decide
  · rw [Int.lt_ceil]
    norm_num
  · rw [hitsToPattern_getD [0] 3 2 0 (by norm_num), hb3]
    have hf : List.filter (fun h => decide (h < (6 : ℚ))) [0] = [0] := by decide
    rw [hf]
    simp only [List.filter_cons, List.filter_nil, slotOf_two_zero]
    decide

theorem getD_replicate_false (n i : ℕ) : (List.replicate n false).getD i false = false := by
  induction n generalizing i with
  | zero => cases i <;> rfl
  | succ n ih =>
    cases i with
    | zero => rfl
    | succ i =>
      rw [List.replicate_succ, List.getD_cons_succ]
      exact ih i

theorem list_eq_of_getD (l₁ l₂ : List Bool) (hlen : l₁.length = l₂.length)
    (h : ∀ i < l₁.length, l₁.getD i false = l₂.getD i false) : l₁ = l₂ := by
  apply List.ext_getElem hlen
  intro i hi1 hi2
  have hgd := h i hi1
  rwa [List.getD_eq_getElem l₁ false hi1, List.getD_eq_getElem l₂ false hi2] at hgd

theorem hitsToPattern_fourBeats :
    hitsToPattern [0, 2, 4, 6] 4 2 = true :: List.replicate 15 false := by
  have hb4 : ((4 : ℤ) : ℚ) * 2 = 8 := by push_cast; norm_num
  apply list_eq_of_getD
  · rw [hitsToPattern_length]
    rfl
  · rw [hitsToPattern_length]
    intro i hi
    rw [hitsToPattern_getD [0, 2, 4, 6] 4 2 i hi, hb4]
    have hf : List.filter (fun h => decide (h < (8 : ℚ))) [0, 2, 4, 6] = [0, 2, 4, 6] := by
      decide
    rw [hf]
    cases i with
    | zero =>
      simp only [List.filter_cons, List.filter_nil, slotOf_two_zero, slotOf_two_two,
        slotOf_two_four, slotOf_two_six]
      decide
    | succ i =>
      have hzf : List.filter (fun h => decide (slotOf 2 h = ((i + 1 : ℕ) : ℤ)))
          [(0 : ℚ), 2, 4, 6] = [] := by
        rw [List.filter_eq_nil_iff]
        intro a ha
        have hslot : slotOf 2 a = 0 := by
          simp only [List.mem_cons, List.not_mem_nil, or_false] at ha
          rcases ha with rfl | rfl | rfl | rfl
          · exact slotOf_two_zero
          · exact slotOf_two_two
          · exact slotOf_two_four
          · exact slotOf_two_six
        rw [hslot]
        simp only [decide_eq_true_iff]
        omega
      rw [hzf]
      rw [List.getD_cons_succ, getD_replicate_false]
      simp only [List.length_nil, Nat.cast_zero]
      rw [decide_eq_false_iff_not]
      intro hle
      have h1 : (1 : ℤ) ≤ max 1 ((4 : ℤ) / 2) := le_max_left _ _
      omega

/-- C3 amended: a drum band configuration with zero kick hits, zero
snare hits, and zero of 16 hihat slots marked hit produces the
documented fallback steady four-on-the-floor kick stanza; with 1 to 7
hihat slots marked the code instead emits a literal hihat pattern
stanza (see the counterexample). -/
theorem generateDrums_fallback (hihat : List ℚ) (bpm : ℤ) (duration : ℚ)
    (h : (hitsToPattern hihat (min 4 (pyInt (duration / ((60 / (bpm : ℚ)) * 4))))
        ((60 / (bpm : ℚ)) * 4)).count true = 0) :
    generateDrums [] [] hihat bpm duration =
      "// Drums\nnote(\"c2*4\").s(\"square\").decay(0.08).lpf(150)" := by
  have hpat : hitsToPattern hihat (min 4 (pyInt (duration / ((60 / (bpm : ℚ)) * 4))))
      ((60 / (bpm : ℚ)) * 4) = List.replicate 16 false := by
    have heq := count_true_zero_eq_replicate _ h
    rwa [hitsToPattern_length] at heq
  simp only [generateDrums]
  rw [hitsToPattern_nil, hpat]
  exact drumsFromPatterns_allRest

/-- C3 counterexample: with zero kick hits, zero snare hits, and one of
16 hihat slots marked hit (fewer than 8), the emitted drums stanza is a
stack containing a literal hihat pattern, not the fallback steady-kick
line — refuting the claim that any sub-8 hihat count yields the
fallback. -/
theorem generateDrums_fallback_counterexample :
    (hitsToPattern [0, 2, 4, 6] 4 2).count true = 1 ∧
    (1 : ℕ) < 8 ∧
    generateDrums [] [] [0, 2, 4, 6] 120 8 ≠
      "// Drums\nnote(\"c2*4\").s(\"square\").decay(0.08).lpf(150)" := by
  refine ⟨?_, by norm_num, ?_⟩
  · rw [hitsToPattern_fourBeats]
    decide
  · simp only [generateDrums]
    rw [bar_at_120]
    have hnb : pyInt ((8 : ℚ) / 2) = 4 := by
      unfold pyInt
      norm_num
    rw [hnb]
    rw [show min (4 : ℤ) 4 = 4 from by norm_num]
    rw [hitsToPattern_nil, hitsToPattern_fourBeats]
    decide

/-- C10: when the signal is shorter than one bar, the number of
observed bars is 0; with non-negative hit times no hit is counted, no
slot reaches the threshold in any band, and the emitted drums stanza is
exactly the fallback steady-kick line. -/
theorem generateDrums_short_signal (kick snare hihat : List ℚ) (bpm : ℤ) (duration : ℚ)
    (hbpm : 0 < bpm) (hdur0 : 0 ≤ duration)
    (hshort : duration < (60 / (bpm : ℚ)) * 4)
    (hk : (kick.all fun h => decide (0 ≤ h)) = true)
    (hs : (snare.all fun h => decide (0 ≤ h)) = true)
    (hh : (hihat.all fun h => decide (0 ≤ h)) = true) :
    min 4 (pyInt (duration / ((60 / (bpm : ℚ)) * 4))) = 0 ∧
    generateDrums kick snare hihat bpm duration =
      "// Drums\nnote(\"c2*4\").s(\"square\").decay(0.08).lpf(150)" := by
  have hbq : (0 : ℚ) < (bpm : ℚ) := by exact_mod_cast hbpm
  have hbar : (0 : ℚ) < (60 / (bpm : ℚ)) * 4 := by positivity
  have hq0 : 0 ≤ duration / ((60 / (bpm : ℚ)) * 4) := div_nonneg hdur0 (le_of_lt hbar)
  have hq1 : duration / ((60 / (bpm : ℚ)) * 4) < 1 := (div_lt_one hbar).2 hshort
  have hnb : pyInt (duration / ((60 / (bpm : ℚ)) * 4)) = 0 := by
    unfold pyInt
    rw [if_pos hq0, Int.floor_eq_zero_iff]
    exact Set.mem_Ico.2 ⟨hq0, hq1⟩
  have hmin : min (4 : ℤ) (pyInt (duration / ((60 / (bpm : ℚ)) * 4))) = 0 := by
    rw [hnb]
    decide
  have hrest : ∀ hits : List ℚ, (hits.all fun h => decide (0 ≤ h)) = true →
      hitsToPattern hits 0 ((60 / (bpm : ℚ)) * 4) = List.replicate 16 false := by
    intro hits hall
    apply hitsToPattern_no_counted
    intro t ht
    have ht0 : (0 : ℚ) ≤ t := of_decide_eq_true (List.all_eq_true.1 hall t ht)
    rw [Int.cast_zero, zero_mul]
    exact not_lt.2 ht0
  refine ⟨hmin, ?_⟩
  simp only [generateDrums]
  rw [hmin, hrest kick hk, hrest snare hs, hrest hihat hh]
  exact drumsFromPatterns_allRest

/-- Witness for C1 at hits `[0, 2]`, `num_bars = 4`, bar duration 2,
slot 0. -/
theorem hitsToPattern_threshold_witness :
    (0 : ℕ) < 16 ∧
    (((hitsToPattern [0, 2] 4 2).getD 0 false = true ↔
      max 1 ((4 : ℤ) / 2) ≤
        (([(0 : ℚ), 2].filter (fun h => decide (slotOf 2 h = ((0 : ℕ) : ℤ)) &&
            decide (h < ((4 : ℤ) : ℚ) * 2))).length : ℤ)) ∧
      (hitsToPattern [0, 2] 4 2).getD 0 false = true ∧
      (hitsToPattern [0] 4 2).getD 0 false = false) :=
  ⟨by decide, hitsToPattern_threshold [0, 2] 4 2 0 (by decide)⟩

/-- Witness for C3 at an empty hihat hit list, bpm 120, duration 8 s. -/
theorem generateDrums_fallback_witness :
    (hitsToPattern [] (min 4 (pyInt ((8 : ℚ) / ((60 / ((120 : ℤ) : ℚ)) * 4))))
        ((60 / ((120 : ℤ) : ℚ)) * 4)).count true = 0 ∧
    generateDrums [] [] [] 120 8 =
      "// Drums\nnote(\"c2*4\").s(\"square\").decay(0.08).lpf(150)" :=
  ⟨by rw [hitsToPattern_nil]; decide,
   generateDrums_fallback [] 120 8 (by rw [hitsToPattern_nil]; decide)⟩

/-- Witness for C4 at the dedup example notes, whose times are all
non-negative. -/
theorem quantizeNotes_dedup_witness :
    (quantizeNotes exNotes).map (fun q => (q.time, q.midi)) =
      List.destutter (· ≠ ·)
        (exNotes.map (fun n => (snapTime quantizeResolution n.time, n.midi))) :=
  quantizeNotes_dedup_spec.1 exNotes (by decide)

/-- Witness for C5 at a 12-bin profile peaking at index 3 (Eb) with a
dominant minor third. -/
theorem analyzeKey_spec_witness :
    ([(0 : ℚ), 0, 0, 5, 0, 0, 2, 0, 0, 0, 0, 0].length = 12) ∧
    (analyzeKey [0, 0, 0, 5, 0, 0, 2, 0, 0, 0, 0, 0]).1 =
      NOTE_NAMES.getD (npArgmax [0, 0, 0, 5, 0, 0, 2, 0, 0, 0, 0, 0]) "" ∧
    ((analyzeKey [0, 0, 0, 5, 0, 0, 2, 0, 0, 0, 0, 0]).2 = "minor" ↔
      [(0 : ℚ), 0, 0, 5, 0, 0, 2, 0, 0, 0, 0, 0].getD
          ((npArgmax [0, 0, 0, 5, 0, 0, 2, 0, 0, 0, 0, 0] + 4) % 12) 0 <
        [(0 : ℚ), 0, 0, 5, 0, 0, 2, 0, 0, 0, 0, 0].getD
          ((npArgmax [0, 0, 0, 5, 0, 0, 2, 0, 0, 0, 0, 0] + 3) % 12) 0) :=
  ⟨by decide,
   (analyzeKey_spec [0, 0, 0, 5, 0, 0, 2, 0, 0, 0, 0, 0] (by decide)).2.2.2.1,
   (analyzeKey_spec [0, 0, 0, 5, 0, 0, 2, 0, 0, 0, 0, 0] (by decide)).2.2.2.2.1⟩

/-- Witness for C6 at bpm 60. -/
theorem quantization_grid_resolutions_witness :
    (60 : ℤ) ≠ 0 ∧
    (quantizeResolution = 1/8 ∧
      drumStepDuration 60 = 15 / ((60 : ℤ) : ℚ) ∧
      (drumStepDuration 60 = quantizeResolution ↔ (60 : ℤ) = 120)) :=
  ⟨by decide, quantization_grid_resolutions 60 (by decide)⟩

/-- Witness for C10 at bpm 120 and a 1-second signal (shorter than the
2-second bar) with one kick and one snare hit. -/
theorem generateDrums_short_signal_witness :
    min 4 (pyInt ((1 : ℚ) / ((60 / ((120 : ℤ) : ℚ)) * 4))) = 0 ∧
    generateDrums [0] [1] [] 120 1 =
      "// Drums\nnote(\"c2*4\").s(\"square\").decay(0.08).lpf(150)" :=
  generateDrums_short_signal [0] [1] [] 120 1 (by decide) (by decide)
    (by push_cast; norm_num) (by decide) (by decide) (by decide)

end Strudel
